import Mathlib

/-!
A verification development for the ingestion-and-state-tracking core of
`main.py` (class `MeshVisualizer`): line parsing with the simulated-node
override (`handle_line`), node registration and layout (`add_node`,
`draw_connection`), message history (`add_message`), and the activity
monitor (`check_node_activity`).

Modelling conventions:
* Text is `List Char`.  Serial lines reach `handle_line` via
  `readline().decode(errors='ignore').strip()`, so a line never contains
  a newline character; hence the regex metacharacter `.` (any char except
  newline) is modelled as "any char", and `$` as end of input.
  Python's `\d` (Unicode decimal digits) is modelled as ASCII digits, and
  `str.lower`/`str.strip` as their ASCII counterparts, which agree with
  Python on all ASCII input.
* Python dicts (`self.nodes`, `self.positions`, `self.edges`,
  `self.message_logs`, `self.last_seen`) are insertion-ordered key/value
  lists; assignment `d[k] = v` replaces in place when `k` is present and
  appends otherwise (`setk` below).
* Wall-clock instants (`datetime.datetime.now()`) are integers
  (whole seconds; the claims under study depend on instants only through
  differences compared against the integer `INACTIVE_TIMEOUT`); the
  single call site of `handle_line` inside one line's processing is given
  one instant `now`.  The `strftime("%H:%M:%S")` display formatting of a
  record's timestamp is dropped: records store the instant itself.
* Screen coordinates are real numbers; the float trigonometry of
  `add_node` is modelled by exact real `cos`/`sin`.
-/

/-- Text, modelling Python `str` restricted to lines without newlines. -/
abbrev Str := List Char

/-- The character class `[\da-f:]` of the address token in the regex of
`handle_line` (line 127), with `\d` taken as ASCII digits. -/
def isAddrChar (c : Char) : Bool :=
  c.isDigit || ('a' ≤ c && c ≤ 'f') || c == ':'

/-- If `p` is a literal prefix of `l`, the remainder after it; `none`
otherwise.  Models matching the literal `from ` at one start position. -/
def stripPre : Str → Str → Option Str
  | [], l => some l
  | _ :: _, [] => none
  | p :: ps, c :: cs => if p = c then stripPre ps cs else none

/-- Greedy split of `l` into its maximal leading run of characters
satisfying `p` and the remainder.  Models the greedy `([\da-f:]+)`. -/
def spanP (p : Char → Bool) : Str → Str × Str
  | [] => ([], [])
  | c :: t =>
    if p c then ((spanP p t).1.cons c, (spanP p t).2) else ([], c :: t)

/-- Split `l` at its first space: `some (gap, rest)` with
`l = gap ++ ' ' :: rest` and no space in `gap`; `none` if `l` has no
space.  Models the lazy `.*?` followed by the literal space. -/
def splitAtSpace : Str → Option (Str × Str)
  | [] => none
  | c :: t =>
    if c = ' ' then some ([], t)
    else (splitAtSpace t).map (fun g => (g.1.cons c, g.2))

/-- The literal `from ` of the regex in `handle_line`. -/
def fromTok : Str := "from ".data

/-- Attempt the tail `([\da-f:]+).*? (.+)$` of the regex of `handle_line`
on the text following a matched `from `.  The address run is greedy and
maximal; shortening it on backtracking only moves non-space characters
into the remainder, so it can never turn a failing attempt into a
success and is not modelled.  The lazy `.*?` stops at the first space;
`(.+)$` requires at least one character after it.  If the first space is
the last character there is no later space either, so the whole attempt
at this start position fails. -/
def matchAfterFrom (l : Str) : Option (Str × Str) :=
  if (spanP isAddrChar l).1 = [] then none
  else
    match splitAtSpace (spanP isAddrChar l).2 with
    | none => none
    | some (_, m) => if m = [] then none else some ((spanP isAddrChar l).1, m)

/-- `re.search(r"from ([\da-f:]+).*? (.+)$", line)`: try every start
position left to right; at each, match the literal `from ` and then the
rest of the pattern; on failure, move one character right. -/
def scan : Str → Option (Str × Str)
  | [] => none
  | c :: t =>
    match stripPre fromTok (c :: t) with
    | some rest =>
      match matchAfterFrom rest with
      | some r => some r
      | none => scan t
    | none => scan t

/-- Python `str.strip()` (ASCII whitespace). -/
def stripWs (l : Str) : Str :=
  ((l.dropWhile Char.isWhitespace).reverse.dropWhile Char.isWhitespace).reverse

/-- `pat` is a literal prefix of `s`; models `str.startswith`. -/
def startsWith : Str → Str → Bool
  | [], _ => true
  | _ :: _, [] => false
  | p :: ps, c :: cs => p == c && startsWith ps cs

/-- Python `message.split(None, 1)`: skip leading whitespace, take the
first whitespace-free token, skip the separating whitespace run; the
remainder (if nonempty) is kept verbatim. -/
def splitWsOnce (l : Str) : List Str :=
  ((l.dropWhile Char.isWhitespace).dropWhile (fun c => !c.isWhitespace)).dropWhile
      Char.isWhitespace
    |> fun rest =>
      if rest = [] then [(l.dropWhile Char.isWhitespace).takeWhile (fun c => !c.isWhitespace)]
      else [(l.dropWhile Char.isWhitespace).takeWhile (fun c => !c.isWhitespace), rest]

/-- Python `str.split(":")`: split on every colon, keeping empty fields. -/
def splitOnColon : Str → List Str
  | [] => [[]]
  | c :: t =>
    if c = ':' then [] :: splitOnColon t
    else
      match splitOnColon t with
      | [] => [[c]]
      | h :: r => (c :: h) :: r

/-- The `# PATCH: Simulate unique node using custom ID` block of
`handle_line` (lines 132-138): if the extracted message, lowercased,
starts with `simulate:`, split the message once on whitespace; when that
yields two parts, the new address is `fd58:sim::` followed by field 1 of
the first token split on colons, and the new message is the second part.
The first token is at least `simulate:` long and contains a colon, so
Python's index `[1]` cannot fail; `getD` supplies an unreachable
default. -/
def simOverride (addr msg : Str) : Str × Str :=
  if startsWith "simulate:".data (msg.map Char.toLower) then
    match splitWsOnce msg with
    | [t, rest] => ("fd58:sim::".data ++ (splitOnColon t).getD 1 [], rest)
    | _ => (addr, msg)
  else (addr, msg)

/-- The parse-and-override step of `handle_line` (lines 127-138): run the
regex; on a match, strip the message (group 2) and apply the simulated
node override, yielding the effective `(node_addr, message)` pair. -/
def lineToRecord (line : Str) : Option (Str × Str) :=
  match scan line with
  | none => none
  | some (a, m) => some (simOverride a (stripWs m))

/-- Node colors used by the visualizer: `orange` for the leader at
creation, `skyblue` for a healthy non-leader (at creation and after a
timely `check_node_activity` pass), `red` for a stale non-leader. -/
inductive Color
  | orange
  | skyblue
  | red
deriving DecidableEq

/-- A node counts as active unless `check_node_activity` has painted it
red (the code's only stale marker). -/
def isActive (c : Color) : Bool := c ≠ Color.red

/-- A screen position. -/
abbrev Point := ℝ × ℝ

/-- An edge item: the two endpoints handed to `QGraphicsLineItem`. -/
abbrev Edge := Point × Point

-- CONFIG constants of main.py (lines 19-22).
noncomputable def NODE_RADIUS : ℝ := 30

noncomputable def CENTER_POS : Point := (450, 300)

def MAX_NODES : ℕ := 12

def INACTIVE_TIMEOUT : ℤ := 15

/-- Look up key `k` in an insertion-ordered key/value list (Python
`d.get(k)` / `k in d`). -/
def alookup {β : Type} (k : Str) : List (Str × β) → Option β
  | [] => none
  | p :: t => if p.1 = k then some p.2 else alookup k t

/-- Python dict assignment `d[k] = v`: replace in place when present,
append otherwise. -/
def setk {β : Type} (k : Str) (v : β) : List (Str × β) → List (Str × β)
  | [] => [(k, v)]
  | p :: t => if p.1 = k then (k, v) :: t else p :: setk k v t

/-- The mutable state of `MeshVisualizer` that the ingestion core reads
and writes (lines 97-103): the five dicts and `center_node`.  A node's
dict value keeps only its brush color; the label, flags and click
handler are presentation-only. -/
structure MVState where
  nodes : List (Str × Color)
  positions : List (Str × Point)
  edges : List (Str × Edge)
  center_node : Option Str
  message_logs : List (Str × List (ℤ × Str))
  last_seen : List (Str × ℤ)

/-- The circle placement of `add_node` (lines 152-156) for a non-leader
registered when `k` nodes already exist:
`angle = k * (360 / MAX_NODES)` degrees, radius 200 (a local constant of
`add_node`), `x = CENTER_POS.x + 200 * cos(radians(angle))` and likewise
with `sin` for `y`; `math.radians(a) = a * π / 180`. -/
noncomputable def circlePos (k : ℕ) : Point :=
  (CENTER_POS.1 + 200 * Real.cos ((k : ℝ) * (360 / (MAX_NODES : ℝ)) * (Real.pi / 180)),
   CENTER_POS.2 + 200 * Real.sin ((k : ℝ) * (360 / (MAX_NODES : ℝ)) * (Real.pi / 180)))

/-- The endpoints handed to `QGraphicsLineItem` in `draw_connection`
(lines 187-188): both ends offset by `NODE_RADIUS / 2`. -/
noncomputable def lineEndpoints (src dst : Point) : Edge :=
  ((src.1 + NODE_RADIUS / 2, src.2 + NODE_RADIUS / 2),
   (dst.1 + NODE_RADIUS / 2, dst.2 + NODE_RADIUS / 2))

/-- `draw_connection` (lines 181-196): no-op when there is no center or
`addr` is the center; otherwise store (replacing any previous line for
`addr`) the line from `positions[addr]` to `positions[center_node]`.
Both dict accesses are total at every call site — `add_node` calls this
right after assigning `positions[addr]`, and the center is assigned a
position when it is first registered — so the `getD` defaults are never
read. -/
noncomputable def draw_connection (s : MVState) (addr : Str) : MVState :=
  match s.center_node with
  | none => s
  | some c =>
    if addr = c then s
    else
      { s with
        edges :=
          setk addr
            (lineEndpoints ((alookup addr s.positions).getD (0, 0))
              ((alookup c s.positions).getD (0, 0)))
            s.edges }

/-- `add_node` (lines 146-178): if `addr` is unknown, register it — the
first node ever registered becomes the center (leader) and is placed at
`CENTER_POS`; any other node is placed on the circle at an angle indexed
by the current node count.  The leader is painted orange, others
skyblue, and a non-center node gets its line to the center. -/
noncomputable def add_node (s : MVState) (addr : Str) : MVState :=
  if (alookup addr s.nodes).isSome then s
  else
    let pos : Point :=
      match s.center_node with
      | none => CENTER_POS
      | some _ => circlePos s.nodes.length
    let center' : Option Str :=
      match s.center_node with
      | none => some addr
      | some c => some c
    let s' :=
      { s with
        nodes := setk addr (if some addr = center' then Color.orange else Color.skyblue) s.nodes,
        positions := setk addr pos s.positions,
        center_node := center' }
    if some addr = center' then s' else draw_connection s' addr

/-- `add_message` (lines 199-205): create an empty history for a new
address, then append the record.  (The open-dialog mirroring is
presentation-only.) -/
def add_message (s : MVState) (addr : Str) (t : ℤ) (message : Str) : MVState :=
  { s with
    message_logs :=
      setk addr ((alookup addr s.message_logs).getD [] ++ [(t, message)]) s.message_logs }

/-- The state-updating tail of `handle_line` (lines 140-143), the
store's `ingest` operation: register the (effective) address, append the
message record, update `last_seen`. -/
noncomputable def ingest (s : MVState) (addr msg : Str) (now : ℤ) : MVState :=
  let s' := add_message (add_node s addr) addr now msg
  { s' with last_seen := setk addr now s'.last_seen }

/-- `handle_line` (lines 126-143): parse the line; on a match, apply the
simulated-node override and ingest the effective record. -/
noncomputable def handle_line (s : MVState) (line : Str) (now : ℤ) : MVState :=
  match lineToRecord line with
  | none => s
  | some (addr, msg) => ingest s addr msg now

/-- `check_node_activity` (lines 221-232): for every node except the
center, if it has a `last_seen` instant, repaint it red when
`now - last_seen > INACTIVE_TIMEOUT` and skyblue otherwise; a node
without a `last_seen` entry is left untouched (the `if last_time:`
guard), as is the center. -/
def check_node_activity (s : MVState) (now : ℤ) : MVState :=
  { s with
    nodes :=
      s.nodes.map fun p =>
        (p.1,
          if some p.1 = s.center_node then p.2
          else
            match alookup p.1 s.last_seen with
            | none => p.2
            | some t => if now - t > INACTIVE_TIMEOUT then Color.red else Color.skyblue) }

/-- The leader address seeded in `__init__` (line 106). -/
def leaderAddr : Str := "fd58:47f8:cd8:54c4:0:ff:fe00:fc00".data

/-- The state with all dicts empty and no center, before `__init__`
registers the leader. -/
def emptyState : MVState := ⟨[], [], [], none, [], []⟩

/-- The state right after `__init__`: the leader registered (line 107). -/
noncomputable def initState : MVState := add_node emptyState leaderAddr

/-- One externally triggered operation against the store: a serial line
arriving (`handle_line`) or an activity-timer tick
(`check_node_activity`). -/
inductive Op
  | line : Str → ℤ → Op
  | tick : ℤ → Op

/-- Apply one operation. -/
noncomputable def step (s : MVState) : Op → MVState
  | Op.line l now => handle_line s l now
  | Op.tick now => check_node_activity s now

/-- Apply a sequence of operations in arrival order. -/
noncomputable def run (s : MVState) (ops : List Op) : MVState := ops.foldl step s

/-- `addAll s l` registers the addresses of `l` in order (a sequence of
bare `add_node` calls). -/
noncomputable def addAll (s : MVState) (l : List Str) : MVState := l.foldl add_node s

/-- The per-address message history, `getHistory` of the spec:
`self.message_logs.get(addr, [])`. -/
def getHistory (s : MVState) (addr : Str) : List (ℤ × Str) :=
  (alookup addr s.message_logs).getD []

/-- Structural invariant of every state reachable from `initState` by
`handle_line` calls and activity ticks: the leader seeded in `__init__`
is the center, orange, and placed at `CENTER_POS`; node keys are
distinct; there is exactly one edge item per non-center node, appended
in registration order, and every edge item joins its node's position to
the center's position (offset as in `draw_connection`). -/
structure ReachInv (s : MVState) : Prop where
  center : s.center_node = some leaderAddr
  leaderColor : alookup leaderAddr s.nodes = some Color.orange
  leaderPos : alookup leaderAddr s.positions = some CENTER_POS
  nodesNodup : (s.nodes.map Prod.fst).Nodup
  edgeKeys : s.edges.map Prod.fst = (s.nodes.map Prod.fst).filter (fun a => a ≠ leaderAddr)
  edgeGeom : ∀ pr ∈ s.edges, ∃ p, alookup pr.1 s.positions = some p ∧
    pr.2 = lineEndpoints p CENTER_POS

-- ===================================================================
-- Association-list lemmas
-- ===================================================================

theorem alookup_setk_self {β : Type} (k : Str) (v : β) (l : List (Str × β)) :
    alookup k (setk k v l) = some v := by
  induction l with
  | nil => simp [setk, alookup]
  | cons h t ih =>
    by_cases hk : h.1 = k
    · simp [setk, hk, alookup]
    · simp [setk, hk, alookup, ih]

theorem alookup_setk_ne {β : Type} {a k : Str} (h : a ≠ k) (v : β) (l : List (Str × β)) :
    alookup a (setk k v l) = alookup a l := by
  have hka : ¬k = a := fun hh => h hh.symm
  induction l with
  | nil => simp [setk, alookup, hka]
  | cons hd t ih =>
    by_cases hk : hd.1 = k
    · have hda : ¬hd.1 = a := by rw [hk]; exact hka
      simp [setk, hk, alookup, hka, hda]
    · by_cases ha : hd.1 = a <;> simp [setk, hk, alookup, ha, ih, h]

theorem alookup_eq_none_iff {β : Type} (k : Str) (l : List (Str × β)) :
    alookup k l = none ↔ k ∉ l.map Prod.fst := by
  induction l with
  | nil => simp [alookup]
  | cons h t ih =>
    by_cases hk : h.1 = k
    · simp only [alookup, if_pos hk, List.map_cons, List.mem_cons, hk]
      constructor
      · intro hc
        exact absurd hc (by simp)
      · intro hm
        exact absurd (Or.inl trivial) hm
    · have hkh : ¬k = h.1 := fun hh => hk hh.symm
      simp only [alookup, if_neg hk, List.map_cons, List.mem_cons, ih]
      constructor
      · intro hm hor
        rcases hor with hor | hor
        · exact hkh hor
        · exact hm hor
      · intro hm hmem
        exact hm (Or.inr hmem)

theorem setk_of_fresh {β : Type} {k : Str} {l : List (Str × β)} (h : alookup k l = none)
    (v : β) : setk k v l = l ++ [(k, v)] := by
  induction l with
  | nil => simp [setk]
  | cons hd t ih =>
    by_cases hk : hd.1 = k
    · simp [alookup, hk] at h
    · simp [alookup, hk] at h
      simp [setk, hk, ih h]

theorem alookup_append_single {β : Type} {a k : Str} (h : a ≠ k) (v : β)
    (l : List (Str × β)) : alookup a (l ++ [(k, v)]) = alookup a l := by
  have hka : ¬k = a := fun hh => h hh.symm
  induction l with
  | nil => simp [alookup, hka]
  | cons hd t ih => by_cases ha : hd.1 = a <;> simp [alookup, ha, ih]

theorem alookup_map_snd {β γ : Type} (g : Str → β → γ) (a : Str) (l : List (Str × β)) :
    alookup a (l.map fun p => (p.1, g p.1 p.2)) = (alookup a l).map (g a) := by
  induction l with
  | nil => simp [alookup]
  | cons hd t ih =>
    by_cases ha : hd.1 = a
    · subst ha
      simp [alookup, ih]
    · simp [alookup, ha, ih]

theorem map_fst_map_snd {β γ : Type} (g : Str → β → γ) (l : List (Str × β)) :
    (l.map fun p => (p.1, g p.1 p.2)).map Prod.fst = l.map Prod.fst := by
  induction l with
  | nil => simp
  | cons hd t ih => simp [ih]

-- ===================================================================
-- Regex-scan decomposition lemmas
-- ===================================================================

theorem stripPre_spec : ∀ (p l r : Str), stripPre p l = some r → l = p ++ r := by
  intro p
  induction p with
  | nil =>
    intro l r h
    simp only [stripPre, Option.some.injEq] at h
    simp [h]
  | cons a ps ih =>
    intro l r h
    cases l with
    | nil => simp [stripPre] at h
    | cons c cs =>
      by_cases hac : a = c
      · subst hac
        simp only [stripPre, if_pos rfl] at h
        simpa using ih cs r h
      · simp [stripPre, hac] at h

theorem spanP_append (p : Char → Bool) (l : Str) :
    (spanP p l).1 ++ (spanP p l).2 = l := by
  induction l with
  | nil => simp [spanP]
  | cons c t ih =>
    by_cases hc : p c
    · simp [spanP, hc, ih]
    · simp [spanP, hc]

theorem spanP_mem {p : Char → Bool} {l : Str} : ∀ c ∈ (spanP p l).1, p c = true := by
  induction l with
  | nil => simp [spanP]
  | cons c t ih =>
    by_cases hc : p c
    · simpa [spanP, hc] using ih
    · simp [spanP, hc]

theorem spanP_rest_head {p : Char → Bool} {l : Str} :
    ∀ g gs, (spanP p l).2 = g :: gs → p g = false := by
  induction l with
  | nil => simp [spanP]
  | cons c t ih =>
    by_cases hc : p c
    · simpa [spanP, hc] using ih
    · intro g gs h
      simp [spanP, hc] at h
      simp [h.1 ▸ hc]

theorem splitAtSpace_spec : ∀ (l g m : Str), splitAtSpace l = some (g, m) →
    l = g ++ ' ' :: m ∧ ∀ c ∈ g, c ≠ ' ' := by
  intro l
  induction l with
  | nil => intro g m h; simp [splitAtSpace] at h
  | cons c t ih =>
    intro g m h
    by_cases hc : c = ' '
    · subst hc
      simp [splitAtSpace] at h
      simp [h.1, h.2]
    · simp only [splitAtSpace, if_neg hc, Option.map_eq_some'] at h
      obtain ⟨⟨g', m'⟩, hsp, heq⟩ := h
      injection heq with heq1 heq2
      subst heq1
      subst heq2
      obtain ⟨h1, h2⟩ := ih g' m' hsp
      refine ⟨by simp [h1], ?_⟩
      intro x hx
      rcases List.mem_cons.mp hx with rfl | hx
      · exact hc
      · exact h2 x hx

theorem matchAfterFrom_spec (l addr msg : Str) (h : matchAfterFrom l = some (addr, msg)) :
    ∃ gap, l = addr ++ gap ++ ' ' :: msg
      ∧ addr ≠ []
      ∧ (∀ c ∈ addr, isAddrChar c = true)
      ∧ (∀ c ∈ gap, c ≠ ' ')
      ∧ (∀ g gs, gap = g :: gs → isAddrChar g = false)
      ∧ msg ≠ [] := by
  by_cases ha : (spanP isAddrChar l).1 = []
  · simp [matchAfterFrom, ha] at h
  · simp only [matchAfterFrom, if_neg ha] at h
    rcases hsp : splitAtSpace (spanP isAddrChar l).2 with _ | ⟨⟨g, m⟩⟩
    · rw [hsp] at h
      simp at h
    · rw [hsp] at h
      by_cases hm : m = []
      · simp [hm] at h
      · simp only [if_neg hm, Option.some.injEq, Prod.mk.injEq] at h
        obtain ⟨rfl, rfl⟩ := h
        obtain ⟨hsplit, hnospace⟩ := splitAtSpace_spec _ _ _ hsp
        refine ⟨g, ?_, ha, spanP_mem, hnospace, ?_, hm⟩
        · rw [List.append_assoc, ← hsplit, spanP_append]
        · intro x xs hx
          rw [hx] at hsplit
          exact spanP_rest_head x (xs ++ ' ' :: m) hsplit


theorem scan_spec : ∀ (line addr msg : Str), scan line = some (addr, msg) →
    ∃ pre gap, line = pre ++ fromTok ++ addr ++ gap ++ ' ' :: msg
      ∧ addr ≠ []
      ∧ (∀ c ∈ addr, isAddrChar c = true)
      ∧ (∀ c ∈ gap, c ≠ ' ')
      ∧ (∀ g gs, gap = g :: gs → isAddrChar g = false)
      ∧ msg ≠ [] := by
  intro line
  induction line with
  | nil => intro addr msg h; simp [scan] at h
  | cons c t ih =>
    intro addr msg h
    rcases hsp : stripPre fromTok (c :: t) with _ | rest
    · rw [scan, hsp] at h
      obtain ⟨pre, gap, hdec, hrest⟩ := ih addr msg h
      exact ⟨c :: pre, gap, by simp [hdec], hrest⟩
    · have h' : (match matchAfterFrom rest with
          | some r => some r
          | none => scan t) = some (addr, msg) := by
        rw [scan, hsp] at h
        exact h
      rcases hm : matchAfterFrom rest with _ | r
      · rw [hm] at h'
        have h'' : scan t = some (addr, msg) := h'
        obtain ⟨pre, gap, hdec, hrest⟩ := ih addr msg h''
        exact ⟨c :: pre, gap, by simp [hdec], hrest⟩
      · rw [hm] at h'
        obtain rfl : r = (addr, msg) := by simpa using h'
        obtain ⟨gap, hdec, hrest⟩ := matchAfterFrom_spec rest addr msg hm
        refine ⟨[], gap, ?_, hrest⟩
        have := stripPre_spec fromTok (c :: t) rest hsp
        simp [this, hdec]

/-- C9: for every line the regex of `handle_line` accepts, the extracted
message (group 2) is the entire remainder of the line after the first
space that follows the (maximal) address token: the line decomposes as
some prefix, the literal `from `, a nonempty run of address characters,
a space-free gap that is empty whenever a space directly follows the
address token (its head, if any, is not an address character and not a
space), one space, and then the message running to the end of the line.
In particular an intervening token such as `says` lands inside the
message text instead of being skipped as a delimiter. -/
theorem c9_message_remainder (line addr msg : Str) (h : scan line = some (addr, msg)) :
    ∃ pre gap, line = pre ++ fromTok ++ addr ++ gap ++ ' ' :: msg
      ∧ addr ≠ []
      ∧ (∀ c ∈ addr, isAddrChar c = true)
      ∧ (∀ c ∈ gap, c ≠ ' ')
      ∧ (∀ g gs, gap = g :: gs → isAddrChar g = false)
      ∧ msg ≠ [] :=
  scan_spec line addr msg h

/-- Closed witness for C9 on the line `x from ab says hi`: the message is
`says hi`, the whole remainder after the first space following `ab`. -/
theorem c9_message_remainder_witness :
    ∃ pre gap, "x from ab says hi".data =
        pre ++ fromTok ++ "ab".data ++ gap ++ ' ' :: "says hi".data
      ∧ "ab".data ≠ []
      ∧ (∀ c ∈ "ab".data, isAddrChar c = true)
      ∧ (∀ c ∈ gap, c ≠ ' ')
      ∧ (∀ g gs, gap = g :: gs → isAddrChar g = false)
      ∧ "says hi".data ≠ [] :=
  c9_message_remainder "x from ab says hi".data "ab".data "says hi".data (by decide)

/-- C1 (counterexample): on the spec's own example line
`... from fd00::1 says simulate:alpha hello world` the code does NOT
produce the synthetic address: the extracted message is
`says simulate:alpha hello world`, which does not start with
`simulate:`, so the override never fires and the effective address is
the real `fd00::1`. -/
theorem c1_counterexample :
    lineToRecord "... from fd00::1 says simulate:alpha hello world".data =
      some ("fd00::1".data, "says simulate:alpha hello world".data)
    ∧ (lineToRecord "... from fd00::1 says simulate:alpha hello world".data).map Prod.fst ≠
      some "fd58:sim::alpha".data := by
  constructor
  · decide
  · decide

/-- C1 (amended): the simulate override fires only when the extracted
message itself begins with `simulate:`.  On the example line with the
intervening token removed, `... from fd00::1 simulate:alpha hello world`,
`handle_line`'s parse-and-override step produces the synthetic address
`fd58:sim::alpha` and message `hello world`; with the `says` token
present it produces `fd00::1` and `says simulate:alpha hello world`. -/
theorem c1_amended_parse :
    lineToRecord "... from fd00::1 simulate:alpha hello world".data =
      some ("fd58:sim::alpha".data, "hello world".data)
    ∧ lineToRecord "... from fd00::1 says simulate:alpha hello world".data =
      some ("fd00::1".data, "says simulate:alpha hello world".data) := by
  constructor
  · decide
  · decide

/-- C10: when the simulate override fires, the synthetic id is the field
between the first and second colon of the first whitespace-separated
token: `simulate:a:b rest` yields address `fd58:sim::a` (the `:b` part
is discarded) and message `rest`, and `simulate: rest` yields the
empty-id address `fd58:sim::` and message `rest`. -/
theorem c10_sim_id_extraction :
    simOverride "fd00::1".data "simulate:a:b rest".data = ("fd58:sim::a".data, "rest".data)
    ∧ simOverride "fd00::1".data "simulate: rest".data = ("fd58:sim::".data, "rest".data) := by
  constructor
  · decide
  · decide

-- ===================================================================
-- Facts about add_node, ingest and the tick
-- ===================================================================

theorem add_node_present (s : MVState) (addr : Str) (h : (alookup addr s.nodes).isSome) :
    add_node s addr = s := by
  simp only [add_node, h, if_true]

theorem draw_connection_positions (s : MVState) (addr : Str) :
    (draw_connection s addr).positions = s.positions := by
  rcases hc : s.center_node with _ | c
  · simp [draw_connection, hc]
  · by_cases ha : addr = c <;> simp [draw_connection, hc, ha]

theorem draw_connection_nodes (s : MVState) (addr : Str) :
    (draw_connection s addr).nodes = s.nodes := by
  rcases hc : s.center_node with _ | c
  · simp [draw_connection, hc]
  · by_cases ha : addr = c <;> simp [draw_connection, hc, ha]

theorem draw_connection_center (s : MVState) (addr : Str) :
    (draw_connection s addr).center_node = s.center_node := by
  rcases hc : s.center_node with _ | c
  · simp [draw_connection, hc]
  · by_cases ha : addr = c <;> simp [draw_connection, hc, ha]

theorem draw_connection_logs (s : MVState) (addr : Str) :
    (draw_connection s addr).message_logs = s.message_logs := by
  rcases hc : s.center_node with _ | c
  · simp [draw_connection, hc]
  · by_cases ha : addr = c <;> simp [draw_connection, hc, ha]

theorem draw_connection_last_seen (s : MVState) (addr : Str) :
    (draw_connection s addr).last_seen = s.last_seen := by
  rcases hc : s.center_node with _ | c
  · simp [draw_connection, hc]
  · by_cases ha : addr = c <;> simp [draw_connection, hc, ha]

theorem add_node_positions_fresh (s : MVState) (addr : Str)
    (hf : alookup addr s.nodes = none) :
    (add_node s addr).positions =
      setk addr (if s.center_node = none then CENTER_POS else circlePos s.nodes.length)
        s.positions := by
  have hfb : (alookup addr s.nodes).isSome = false := by simp [hf]
  rcases hc : s.center_node with _ | c
  · simp [add_node, hfb, hc]
  · by_cases ha : some addr = (some c : Option Str)
    · simp [add_node, hfb, hc, ha]
    · simp [add_node, hfb, hc, ha, draw_connection_positions]

theorem add_node_nodes_fresh (s : MVState) (addr : Str)
    (hf : alookup addr s.nodes = none) :
    ∃ col, (add_node s addr).nodes = s.nodes ++ [(addr, col)] := by
  have hfb : (alookup addr s.nodes).isSome = false := by simp [hf]
  rcases hc : s.center_node with _ | c
  · exact ⟨Color.orange, by simp [add_node, hfb, hc, setk_of_fresh hf]⟩
  · by_cases ha : some addr = (some c : Option Str)
    · exact ⟨Color.orange, by simp [add_node, hfb, hc, ha, setk_of_fresh hf]⟩
    · exact ⟨Color.skyblue,
        by simp [add_node, hfb, hc, ha, draw_connection_nodes, setk_of_fresh hf]⟩

theorem add_node_logs (s : MVState) (addr : Str) :
    (add_node s addr).message_logs = s.message_logs := by
  by_cases h : (alookup addr s.nodes).isSome
  · simp [add_node, h]
  · have hfb : (alookup addr s.nodes).isSome = false := by simpa using h
    rcases hc : s.center_node with _ | c
    · simp [add_node, hfb, hc]
    · by_cases ha : some addr = (some c : Option Str) <;>
        simp [add_node, hfb, hc, ha, draw_connection_logs]

theorem add_node_last_seen (s : MVState) (addr : Str) :
    (add_node s addr).last_seen = s.last_seen := by
  by_cases h : (alookup addr s.nodes).isSome
  · simp [add_node, h]
  · have hfb : (alookup addr s.nodes).isSome = false := by simpa using h
    rcases hc : s.center_node with _ | c
    · simp [add_node, hfb, hc]
    · by_cases ha : some addr = (some c : Option Str) <;>
        simp [add_node, hfb, hc, ha, draw_connection_last_seen]

theorem add_node_center_some (s : MVState) (addr c : Str) (hc : s.center_node = some c) :
    (add_node s addr).center_node = some c := by
  by_cases h : (alookup addr s.nodes).isSome
  · simp [add_node, h, hc]
  · have hfb : (alookup addr s.nodes).isSome = false := by simpa using h
    by_cases ha : some addr = (some c : Option Str) <;>
      simp [add_node, hfb, hc, ha, draw_connection_center]

theorem ingest_nodes (s : MVState) (addr m : Str) (t : ℤ) :
    (ingest s addr m t).nodes = (add_node s addr).nodes := rfl

theorem ingest_positions (s : MVState) (addr m : Str) (t : ℤ) :
    (ingest s addr m t).positions = (add_node s addr).positions := rfl

theorem ingest_edges (s : MVState) (addr m : Str) (t : ℤ) :
    (ingest s addr m t).edges = (add_node s addr).edges := rfl

theorem ingest_center (s : MVState) (addr m : Str) (t : ℤ) :
    (ingest s addr m t).center_node = (add_node s addr).center_node := rfl

theorem ingest_last_seen (s : MVState) (addr m : Str) (t : ℤ) :
    (ingest s addr m t).last_seen = setk addr t (add_node s addr).last_seen := rfl

theorem getHistory_ingest (s : MVState) (addr m : Str) (t : ℤ) (a : Str) :
    getHistory (ingest s addr m t) a =
      if a = addr then getHistory s a ++ [(t, m)] else getHistory s a := by
  unfold getHistory ingest add_message
  simp only [add_node_logs]
  by_cases ha : a = addr
  · subst ha
    rw [alookup_setk_self]
    simp
  · rw [alookup_setk_ne ha]
    simp [ha]

theorem check_nodes_eq (s : MVState) (now : ℤ) (a : Str) :
    alookup a (check_node_activity s now).nodes =
      (alookup a s.nodes).map (fun c =>
        if some a = s.center_node then c
        else
          match alookup a s.last_seen with
          | none => c
          | some t => if now - t > INACTIVE_TIMEOUT then Color.red else Color.skyblue) := by
  unfold check_node_activity
  exact alookup_map_snd
    (fun a c =>
      if some a = s.center_node then c
      else
        match alookup a s.last_seen with
        | none => c
        | some t => if now - t > INACTIVE_TIMEOUT then Color.red else Color.skyblue)
    a s.nodes

/-- C4: a node registered while the store has no center yet (the seeded
leader) is placed at `CENTER_POS`; a node registered when a center
exists and `k` nodes are already registered is placed at
`circlePos k = (CENTER_POS.x + 200·cos(k·(360/MAX_NODES)·π/180),
CENTER_POS.y + 200·sin(k·(360/MAX_NODES)·π/180))`.  The position is a
function of the insertion count alone, so the same arrival order always
reproduces the same layout. -/
theorem c4_position_formula (s : MVState) (addr : Str) (h : alookup addr s.nodes = none) :
    alookup addr (add_node s addr).positions =
      some (if s.center_node = none then CENTER_POS else circlePos s.nodes.length) := by
  rw [add_node_positions_fresh s addr h, alookup_setk_self]

/-- Closed witness for C4: registering `b1` into the seeded initial
state (1 node present, center set). -/
theorem c4_position_formula_witness :
    alookup "b1".data (add_node initState "b1".data).positions =
      some (if initState.center_node = none then CENTER_POS
        else circlePos initState.nodes.length) :=
  c4_position_formula initState "b1".data (by decide)

/-- C5: ingesting a previously unknown address creates exactly one node
(the node count grows by one); a second ingest of the same address
leaves `nodes`, `positions`, `edges` and `center_node` exactly as after
the first call, appends exactly one record to that address's history,
leaves every other history unchanged, and updates `last_seen`. -/
theorem c5_idempotent_registration (s : MVState) (addr m1 m2 : Str) (t1 t2 : ℤ)
    (h : alookup addr s.nodes = none) :
    (ingest s addr m1 t1).nodes.length = s.nodes.length + 1
    ∧ (ingest (ingest s addr m1 t1) addr m2 t2).nodes = (ingest s addr m1 t1).nodes
    ∧ (ingest (ingest s addr m1 t1) addr m2 t2).positions = (ingest s addr m1 t1).positions
    ∧ (ingest (ingest s addr m1 t1) addr m2 t2).edges = (ingest s addr m1 t1).edges
    ∧ (ingest (ingest s addr m1 t1) addr m2 t2).center_node =
        (ingest s addr m1 t1).center_node
    ∧ getHistory (ingest (ingest s addr m1 t1) addr m2 t2) addr =
        getHistory (ingest s addr m1 t1) addr ++ [(t2, m2)]
    ∧ (∀ b, b ≠ addr → getHistory (ingest (ingest s addr m1 t1) addr m2 t2) b =
        getHistory (ingest s addr m1 t1) b)
    ∧ alookup addr (ingest (ingest s addr m1 t1) addr m2 t2).last_seen = some t2 := by
  obtain ⟨col, hcol⟩ := add_node_nodes_fresh s addr h
  have hmem : (alookup addr (ingest s addr m1 t1).nodes).isSome := by
    rw [ingest_nodes, hcol, ← setk_of_fresh h, alookup_setk_self]
    rfl
  have h2 : add_node (ingest s addr m1 t1) addr = ingest s addr m1 t1 :=
    add_node_present _ addr hmem
  refine ⟨?_, ?_, ?_, ?_, ?_, ?_, ?_, ?_⟩
  · rw [ingest_nodes, hcol]
    simp
  · rw [ingest_nodes, h2]
  · rw [ingest_positions, h2]
  · rw [ingest_edges, h2]
  · rw [ingest_center, h2]
  · rw [getHistory_ingest]
    simp
  · intro b hb
    rw [getHistory_ingest]
    simp [hb]
  · rw [ingest_last_seen, h2, alookup_setk_self]

/-- Closed witness for C5: two ingests of the fresh address `ab` into
the seeded initial state. -/
theorem c5_idempotent_registration_witness :
    (ingest initState "ab".data "x".data 1).nodes.length = initState.nodes.length + 1
    ∧ (ingest (ingest initState "ab".data "x".data 1) "ab".data "y".data 2).nodes =
        (ingest initState "ab".data "x".data 1).nodes
    ∧ (ingest (ingest initState "ab".data "x".data 1) "ab".data "y".data 2).positions =
        (ingest initState "ab".data "x".data 1).positions
    ∧ (ingest (ingest initState "ab".data "x".data 1) "ab".data "y".data 2).edges =
        (ingest initState "ab".data "x".data 1).edges
    ∧ (ingest (ingest initState "ab".data "x".data 1) "ab".data "y".data 2).center_node =
        (ingest initState "ab".data "x".data 1).center_node
    ∧ getHistory (ingest (ingest initState "ab".data "x".data 1) "ab".data "y".data 2)
          "ab".data =
        getHistory (ingest initState "ab".data "x".data 1) "ab".data ++ [(2, "y".data)]
    ∧ (∀ b, b ≠ "ab".data →
        getHistory (ingest (ingest initState "ab".data "x".data 1) "ab".data "y".data 2) b =
          getHistory (ingest initState "ab".data "x".data 1) b)
    ∧ alookup "ab".data
        (ingest (ingest initState "ab".data "x".data 1) "ab".data "y".data 2).last_seen =
        some 2 :=
  c5_idempotent_registration initState "ab".data "x".data "y".data 1 2 (by decide)

/-- C2 (amended): `check_node_activity` skips the center node and leaves
any node without a `last_seen` instant untouched; for a non-center node
with `last_seen = t` it repaints the node red exactly when
`now - t > INACTIVE_TIMEOUT` and skyblue otherwise, so the node is
active if and only if the elapsed time is at most the timeout.  Nodes
with `last_seen` absent are NOT classified stale — they keep their
previous color. -/
theorem c2_tick_classification (s : MVState) (now : ℤ) (a : Str) :
    ((some a = s.center_node ∨ alookup a s.last_seen = none) →
        alookup a (check_node_activity s now).nodes = alookup a s.nodes)
    ∧ (∀ t : ℤ, some a ≠ s.center_node → alookup a s.last_seen = some t →
        alookup a (check_node_activity s now).nodes =
          (alookup a s.nodes).map (fun _ =>
            if now - t > INACTIVE_TIMEOUT then Color.red else Color.skyblue))
    ∧ (∀ t : ℤ,
        isActive (if now - t > INACTIVE_TIMEOUT then Color.red else Color.skyblue) =
          decide (now - t ≤ INACTIVE_TIMEOUT)) := by
  refine ⟨?_, ?_, ?_⟩
  · intro hcase
    rw [check_nodes_eq]
    rcases hcase with hcen | habs
    · have : ∀ c : Color, (if some a = s.center_node then c
          else
            match alookup a s.last_seen with
            | none => c
            | some t => if now - t > INACTIVE_TIMEOUT then Color.red else Color.skyblue) = c := by
        intro c
        rw [if_pos hcen]
      simp only [this]
      cases alookup a s.nodes <;> rfl
    · have : ∀ c : Color, (if some a = s.center_node then c
          else
            match alookup a s.last_seen with
            | none => c
            | some t => if now - t > INACTIVE_TIMEOUT then Color.red else Color.skyblue) = c := by
        intro c
        rw [habs]
        by_cases hcen : some a = s.center_node <;> simp [hcen]
      simp only [this]
      cases alookup a s.nodes <;> rfl
  · intro t hcen hseen
    rw [check_nodes_eq, hseen]
    simp [hcen]
  · intro t
    by_cases hlt : now - t > INACTIVE_TIMEOUT
    · have hnle : ¬(now - t ≤ INACTIVE_TIMEOUT) := not_le.mpr hlt
      simp [if_pos hlt, isActive, hnle]
    · have hle : now - t ≤ INACTIVE_TIMEOUT := not_lt.mp hlt
      simp [if_neg hlt, isActive, hle]

/-- Closed witness for C2's amended classification: the node `ab`,
ingested at instant 5, is repainted by the tick at instant 25 according
to `25 - 5 > INACTIVE_TIMEOUT` (red, stale). -/
theorem c2_tick_classification_witness :
    alookup "ab".data
        (check_node_activity (handle_line initState "from ab hi".data 5) 25).nodes =
      (alookup "ab".data (handle_line initState "from ab hi".data 5).nodes).map (fun _ =>
        if (25 : ℤ) - 5 > INACTIVE_TIMEOUT then Color.red else Color.skyblue) :=
  (c2_tick_classification (handle_line initState "from ab hi".data 5) 25 "ab".data).2.1 5
    (by decide) (by decide)

/-- C2 (counterexample): a freshly registered non-leader node with no
`last_seen` entry is NOT classified stale by the tick, contradicting the
claim that an absent `lastSeen` counts as infinitely elapsed: after
`add_node` of `aa` and a tick at instant 100, `aa` still has no
`last_seen`, is not the center, and keeps its active skyblue color. -/
theorem c2_counterexample :
    alookup "aa".data (add_node initState "aa".data).last_seen = none
    ∧ some "aa".data ≠ (add_node initState "aa".data).center_node
    ∧ alookup "aa".data
        (check_node_activity (add_node initState "aa".data) 100).nodes = some Color.skyblue
    ∧ isActive Color.skyblue = true := by
  refine ⟨by decide, by decide, by decide, by decide⟩

-- ===================================================================
-- The reachable-state invariant
-- ===================================================================

theorem add_node_first (s : MVState) (addr : Str) (hf : alookup addr s.nodes = none)
    (hc : s.center_node = none) :
    add_node s addr = { s with
      nodes := setk addr Color.orange s.nodes,
      positions := setk addr CENTER_POS s.positions,
      center_node := some addr } := by
  have hfb : (alookup addr s.nodes).isSome = false := by simp [hf]
  simp [add_node, hfb, hc]

theorem add_node_fields_fresh_ne (s : MVState) (addr c : Str)
    (hf : alookup addr s.nodes = none) (hc : s.center_node = some c) (hne : addr ≠ c) :
    (add_node s addr).nodes = s.nodes ++ [(addr, Color.skyblue)]
    ∧ (add_node s addr).positions = setk addr (circlePos s.nodes.length) s.positions
    ∧ (add_node s addr).edges =
        setk addr
          (lineEndpoints (circlePos s.nodes.length) ((alookup c s.positions).getD (0, 0)))
          s.edges
    ∧ (add_node s addr).center_node = some c := by
  have hfb : (alookup addr s.nodes).isSome = false := by simp [hf]
  have ha : ¬(some addr = (some c : Option Str)) := by simpa using hne
  have hca : c ≠ addr := fun hh => hne hh.symm
  refine ⟨?_, ?_, ?_, ?_⟩ <;>
    simp [add_node, hfb, hc, ha, draw_connection, hne, setk_of_fresh hf,
      alookup_setk_self, alookup_setk_ne hca]

theorem initState_eq :
    initState =
      ⟨[(leaderAddr, Color.orange)], [(leaderAddr, CENTER_POS)], [], some leaderAddr,
        [], []⟩ := by
  have h := add_node_first emptyState leaderAddr rfl rfl
  rw [initState, h]
  simp [emptyState, setk]

theorem reachInv_init : ReachInv initState := by
  rw [initState_eq]
  constructor
  · rfl
  · simp [alookup]
  · simp [alookup]
  · simp
  · simp
  · simp

theorem reachInv_add_node (s : MVState) (addr : Str) (h : ReachInv s) :
    ReachInv (add_node s addr) := by
  by_cases hp : (alookup addr s.nodes).isSome
  · rw [add_node_present s addr hp]
    exact h
  · have hf : alookup addr s.nodes = none := by
      rcases hal : alookup addr s.nodes with _ | v
      · rfl
      · rw [hal] at hp
        simp at hp
    have hne : addr ≠ leaderAddr := by
      intro heq
      rw [heq, h.leaderColor] at hf
      cases hf
    have hnl : leaderAddr ≠ addr := fun hh => hne hh.symm
    have hfree : addr ∉ s.nodes.map Prod.fst := (alookup_eq_none_iff addr s.nodes).mp hf
    have hedgefree : alookup addr s.edges = none := by
      rw [alookup_eq_none_iff, h.edgeKeys]
      intro hmem
      exact hfree (List.mem_of_mem_filter hmem)
    obtain ⟨hn, hpos, hedge, hcen⟩ :=
      add_node_fields_fresh_ne s addr leaderAddr hf h.center hne
    have hkeys : (add_node s addr).nodes.map Prod.fst = s.nodes.map Prod.fst ++ [addr] := by
      rw [hn]
      simp
    constructor
    · rw [hcen]
    · rw [hn, alookup_append_single hnl]
      exact h.leaderColor
    · rw [hpos, alookup_setk_ne hnl]
      exact h.leaderPos
    · rw [hkeys]
      simp [List.nodup_append, h.nodesNodup, hfree]
    · rw [hedge, setk_of_fresh hedgefree, hkeys]
      simp only [List.map_append, List.map_cons, List.map_nil, List.filter_append]
      rw [h.edgeKeys]
      congr 1
      simp [hne]
    · intro pr hpr
      rw [hedge, setk_of_fresh hedgefree] at hpr
      rcases List.mem_append.mp hpr with hold | hnew
      · obtain ⟨p, hlook, hgeom⟩ := h.edgeGeom pr hold
        have hprne : pr.1 ≠ addr := by
          intro heq
          apply hfree
          have : pr.1 ∈ s.edges.map Prod.fst := List.mem_map_of_mem Prod.fst hold
          rw [h.edgeKeys] at this
          exact heq ▸ List.mem_of_mem_filter this
        refine ⟨p, ?_, hgeom⟩
        rw [hpos, alookup_setk_ne hprne]
        exact hlook
      · have hpr' : pr = (addr,
            lineEndpoints (circlePos s.nodes.length)
              ((alookup leaderAddr s.positions).getD (0, 0))) := by
          simpa using hnew
        refine ⟨circlePos s.nodes.length, ?_, ?_⟩
        · rw [hpr', hpos]
          exact alookup_setk_self _ _ _
        · rw [hpr', h.leaderPos]
          rfl

theorem reachInv_ingest (s : MVState) (addr m : Str) (t : ℤ) (h : ReachInv s) :
    ReachInv (ingest s addr m t) := by
  have h2 := reachInv_add_node s addr h
  constructor
  · rw [ingest_center]
    exact h2.center
  · rw [ingest_nodes]
    exact h2.leaderColor
  · rw [ingest_positions]
    exact h2.leaderPos
  · rw [ingest_nodes]
    exact h2.nodesNodup
  · rw [ingest_edges, ingest_nodes]
    exact h2.edgeKeys
  · intro pr hpr
    rw [ingest_edges] at hpr
    rw [ingest_positions]
    exact h2.edgeGeom pr hpr

theorem reachInv_handle_line (s : MVState) (l : Str) (now : ℤ) (h : ReachInv s) :
    ReachInv (handle_line s l now) := by
  unfold handle_line
  rcases lineToRecord l with _ | ⟨addr, msg⟩
  · exact h
  · exact reachInv_ingest s addr msg now h

theorem reachInv_tick (s : MVState) (now : ℤ) (h : ReachInv s) :
    ReachInv (check_node_activity s now) := by
  constructor
  · exact h.center
  · rw [check_nodes_eq, h.leaderColor]
    simp [h.center]
  · exact h.leaderPos
  · show (List.map Prod.fst (List.map _ s.nodes)).Nodup
    rw [List.map_map]
    exact h.nodesNodup
  · show List.map Prod.fst s.edges = (List.map Prod.fst (List.map _ s.nodes)).filter _
    rw [List.map_map]
    exact h.edgeKeys
  · exact h.edgeGeom

theorem reachInv_step (s : MVState) (op : Op) (h : ReachInv s) : ReachInv (step s op) := by
  cases op with
  | line l now => exact reachInv_handle_line s l now h
  | tick now => exact reachInv_tick s now h

theorem reachInv_run : ∀ (ops : List Op) (s : MVState), ReachInv s → ReachInv (run s ops) := by
  intro ops
  induction ops with
  | nil => intro s h; exact h
  | cons op t ih =>
    intro s h
    exact ih (step s op) (reachInv_step s op h)

/-- C6: after any sequence of line ingests and activity ticks starting
from the seeded initial state, the leader keeps the center position
`CENTER_POS` and the orange color it was created with; orange counts as
active, so the leader is always active. -/
theorem c6_leader_fixed (ops : List Op) :
    alookup leaderAddr (run initState ops).positions = some CENTER_POS
    ∧ alookup leaderAddr (run initState ops).nodes = some Color.orange
    ∧ isActive Color.orange = true := by
  have h := reachInv_run ops initState reachInv_init
  exact ⟨h.leaderPos, h.leaderColor, by decide⟩

theorem countP_eq_one_of_nodup {l : List Str} {a : Str} (hnd : l.Nodup) (ha : a ∈ l) :
    l.countP (fun x => decide (x = a)) = 1 := by
  induction l with
  | nil => cases ha
  | cons b t ih =>
    rw [List.countP_cons]
    rcases List.mem_cons.mp ha with rfl | hat
    · have hnotin : a ∉ t := (List.nodup_cons.mp hnd).1
      have hz : t.countP (fun x => decide (x = a)) = 0 := by
        rw [List.countP_eq_zero]
        intro x hx
        simp only [decide_eq_true_eq]
        intro heq
        exact hnotin (heq ▸ hx)
      simp [hz]
    · have hne : b ≠ a := by
        intro heq
        exact (List.nodup_cons.mp hnd).1 (heq ▸ hat)
      rw [ih (List.nodup_cons.mp hnd).2 hat]
      simp [hne]

/-- C7: in every state reachable from the seeded initial state, each
registered non-leader address owns exactly one edge item; every edge
item belongs to a registered non-leader and joins that node's position
to the leader's `CENTER_POS` (so no edge joins two non-leaders); and the
leader itself has no edge. -/
theorem c7_star_invariant (ops : List Op) :
    (∀ a, a ∈ (run initState ops).nodes.map Prod.fst → a ≠ leaderAddr →
        ((run initState ops).edges.map Prod.fst).countP (fun x => decide (x = a)) = 1)
    ∧ (∀ pr ∈ (run initState ops).edges,
        pr.1 ≠ leaderAddr ∧ pr.1 ∈ (run initState ops).nodes.map Prod.fst ∧
          ∃ p, alookup pr.1 (run initState ops).positions = some p ∧
            pr.2 = lineEndpoints p CENTER_POS)
    ∧ alookup leaderAddr (run initState ops).edges = none := by
  have h := reachInv_run ops initState reachInv_init
  refine ⟨?_, ?_, ?_⟩
  · intro a ha hne
    rw [h.edgeKeys]
    have hmem : a ∈ ((run initState ops).nodes.map Prod.fst).filter
        (fun x => decide (x ≠ leaderAddr)) := by
      rw [List.mem_filter]
      exact ⟨ha, by simp [hne]⟩
    exact countP_eq_one_of_nodup (h.nodesNodup.filter _) hmem
  · intro pr hpr
    have hkey : pr.1 ∈ (run initState ops).edges.map Prod.fst :=
      List.mem_map_of_mem Prod.fst hpr
    rw [h.edgeKeys] at hkey
    have hk := List.mem_filter.mp hkey
    obtain ⟨p, hlook, hgeom⟩ := h.edgeGeom pr hpr
    exact ⟨by simpa using hk.2, hk.1, p, hlook, hgeom⟩
  · rw [alookup_eq_none_iff, h.edgeKeys]
    intro hmem
    have := (List.mem_filter.mp hmem).2
    simp at this

/-- Closed witness for C7: after ingesting one line from `ab`, the
non-leader `ab` owns exactly one edge item. -/
theorem c7_star_invariant_witness :
    ((run initState [Op.line "from ab hi".data 3]).edges.map Prod.fst).countP
      (fun x => decide (x = "ab".data)) = 1 :=
  (c7_star_invariant [Op.line "from ab hi".data 3]).1 "ab".data (by decide) (by decide)

theorem getHistory_step_extends (s : MVState) (op : Op) (a : Str) :
    ∃ t, getHistory s a ++ t = getHistory (step s op) a := by
  cases op with
  | tick now => exact ⟨[], by simp [step, check_node_activity, getHistory]⟩
  | line l now =>
    show ∃ t, getHistory s a ++ t = getHistory (handle_line s l now) a
    unfold handle_line
    rcases lineToRecord l with _ | ⟨addr, msg⟩
    · exact ⟨[], by simp⟩
    · by_cases ha : a = addr
      · refine ⟨[(now, msg)], ?_⟩
        rw [getHistory_ingest, if_pos ha]
      · refine ⟨[], ?_⟩
        rw [getHistory_ingest, if_neg ha]
        simp

/-- C8: for every address, the message history after any sequence of
line ingests and activity ticks extends the history before them — prior
records are never removed, modified or reordered; a tick never changes
any history, and an accepted line whose effective address is a different
node leaves this address's history exactly unchanged. -/
theorem c8_history_monotone (s : MVState) (ops : List Op) (a : Str) :
    (∃ t, getHistory s a ++ t = getHistory (run s ops) a)
    ∧ (∀ now, getHistory (check_node_activity s now) a = getHistory s a)
    ∧ (∀ l now b m, lineToRecord l = some (b, m) → b ≠ a →
        getHistory (handle_line s l now) a = getHistory s a) := by
  refine ⟨?_, fun now => rfl, ?_⟩
  · induction ops generalizing s with
    | nil => exact ⟨[], by simp [run]⟩
    | cons op t ih =>
      obtain ⟨t1, h1⟩ := getHistory_step_extends s op a
      obtain ⟨t2, h2⟩ := ih (step s op)
      refine ⟨t1 ++ t2, ?_⟩
      rw [show run s (op :: t) = run (step s op) t from rfl, ← h2, ← h1, List.append_assoc]
  · intro l now b m hl hb
    unfold handle_line
    rw [hl]
    show getHistory (ingest s b m now) a = getHistory s a
    rw [getHistory_ingest, if_neg (fun heq => hb heq.symm)]

/-- Closed witness for C8: a tick extends (trivially) the empty history
of `b1`, and ingesting a line from `ab` leaves the history of the other
address `zz` unchanged. -/
theorem c8_history_monotone_witness :
    (∃ t, getHistory initState "b1".data ++ t =
        getHistory (run initState [Op.tick 2]) "b1".data)
    ∧ getHistory (handle_line initState "from ab hi".data 4) "zz".data =
        getHistory initState "zz".data :=
  ⟨(c8_history_monotone initState [Op.tick 2] "b1".data).1,
   (c8_history_monotone initState [] "zz".data).2.2 "from ab hi".data 4 "ab".data "hi".data
     (by decide) (by decide)⟩

-- ===================================================================
-- Capacity behavior (C3)
-- ===================================================================

theorem alookup_eq_none_of_not_isSome {β : Type} {a : Str} {l : List (Str × β)}
    (h : ¬(alookup a l).isSome = true) : alookup a l = none := by
  rcases hal : alookup a l with _ | v
  · rfl
  · rw [hal] at h
    simp at h

theorem addAll_positions_other (l : List Str) (s : MVState) (b : Str) (hb : b ∉ l) :
    alookup b (addAll s l).positions = alookup b s.positions := by
  induction l generalizing s with
  | nil => rfl
  | cons a t ih =>
    have hba : b ≠ a := by
      intro heq
      exact hb (heq ▸ List.mem_cons_self a t)
    have hbt : b ∉ t := fun hh => hb (List.mem_cons_of_mem a hh)
    show alookup b (addAll (add_node s a) t).positions = _
    rw [ih (add_node s a) hbt]
    by_cases hp : (alookup a s.nodes).isSome
    · rw [add_node_present s a hp]
    · rw [add_node_positions_fresh s a (alookup_eq_none_of_not_isSome hp),
        alookup_setk_ne hba]

theorem addAll_spec (l : List Str) (s : MVState) (hnd : l.Nodup)
    (hf : ∀ a ∈ l, alookup a s.nodes = none) (c : Str) (hc : s.center_node = some c) :
    (addAll s l).nodes.length = s.nodes.length + l.length
    ∧ ∀ i (hi : i < l.length),
        alookup (l.get ⟨i, hi⟩) (addAll s l).positions =
          some (circlePos (s.nodes.length + i)) := by
  induction l generalizing s with
  | nil =>
    refine ⟨by simp [addAll], ?_⟩
    intro i hi
    exact absurd hi (by simp)
  | cons a t ih =>
    have hfa : alookup a s.nodes = none := hf a (List.mem_cons_self a t)
    obtain ⟨col, hcol⟩ := add_node_nodes_fresh s a hfa
    have hlen1 : (add_node s a).nodes.length = s.nodes.length + 1 := by
      rw [hcol]
      simp
    have hcen1 : (add_node s a).center_node = some c := add_node_center_some s a c hc
    have hft : ∀ b ∈ t, alookup b (add_node s a).nodes = none := by
      intro b hbt
      have hba : b ≠ a := by
        intro heq
        exact (List.nodup_cons.mp hnd).1 (heq ▸ hbt)
      rw [hcol, alookup_append_single hba]
      exact hf b (List.mem_cons_of_mem a hbt)
    obtain ⟨hlen, hpos⟩ := ih (add_node s a) (List.nodup_cons.mp hnd).2 hft hcen1
    constructor
    · show (addAll (add_node s a) t).nodes.length = _
      rw [hlen, hlen1]
      simp [Nat.add_assoc, Nat.add_comm 1 t.length]
    · intro i hi
      cases i with
      | zero =>
        have hna : a ∉ t := (List.nodup_cons.mp hnd).1
        show alookup a (addAll (add_node s a) t).positions =
          some (circlePos (s.nodes.length + 0))
        rw [addAll_positions_other t (add_node s a) a hna,
          add_node_positions_fresh s a hfa, alookup_setk_self]
        simp [hc]
      | succ j =>
        have hj : j < t.length := by simpa using hi
        have hstep := hpos j hj
        rw [hlen1] at hstep
        show alookup (t.get ⟨j, hj⟩) (addAll (add_node s a) t).positions =
          some (circlePos (s.nodes.length + (j + 1)))
        rw [hstep, show s.nodes.length + 1 + j = s.nodes.length + (j + 1) from by omega]

theorem circlePos_period (k : ℕ) : circlePos (k + MAX_NODES) = circlePos k := by
  have harg : ((k + MAX_NODES : ℕ) : ℝ) * (360 / (MAX_NODES : ℝ)) * (Real.pi / 180) =
      (k : ℝ) * (360 / (MAX_NODES : ℝ)) * (Real.pi / 180) + 2 * Real.pi := by
    rw [show (MAX_NODES : ℕ) = 12 from rfl]
    push_cast
    ring
  unfold circlePos
  rw [harg, Real.cos_add_two_pi, Real.sin_add_two_pi]

/-- C3 (counterexample): `add_node` enforces no capacity cap and raises
no `CapacityExceeded` signal.  Registering 13 further distinct addresses
after the seeded leader (so 14 nodes, beyond `MAX_NODES = 12`) silently
succeeds — the store ends with `MAX_NODES + 2` nodes — and the 13th
extra node receives exactly the position of the 1st extra node: the
angle `13·30° = 390°` wraps onto `30°`, an overlapping layout position
instead of an explicit rejection. -/
theorem c3_counterexample :
    (addAll initState ["b01".data, "b02".data, "b03".data, "b04".data, "b05".data,
        "b06".data, "b07".data, "b08".data, "b09".data, "b10".data, "b11".data,
        "b12".data, "b13".data]).nodes.length = MAX_NODES + 2
    ∧ alookup "b13".data (addAll initState ["b01".data, "b02".data, "b03".data,
        "b04".data, "b05".data, "b06".data, "b07".data, "b08".data, "b09".data,
        "b10".data, "b11".data, "b12".data, "b13".data]).positions =
      alookup "b01".data (addAll initState ["b01".data, "b02".data, "b03".data,
        "b04".data, "b05".data, "b06".data, "b07".data, "b08".data, "b09".data,
        "b10".data, "b11".data, "b12".data, "b13".data]).positions
    ∧ alookup "b01".data (addAll initState ["b01".data, "b02".data, "b03".data,
        "b04".data, "b05".data, "b06".data, "b07".data, "b08".data, "b09".data,
        "b10".data, "b11".data, "b12".data, "b13".data]).positions =
      some (circlePos 1) := by
  obtain ⟨hlen, hpos⟩ := addAll_spec
    ["b01".data, "b02".data, "b03".data, "b04".data, "b05".data, "b06".data, "b07".data,
      "b08".data, "b09".data, "b10".data, "b11".data, "b12".data, "b13".data]
    initState (by decide) (by decide) leaderAddr (by decide)
  have hl1 : initState.nodes.length = 1 := by
    rw [initState_eq]
    rfl
  have h1 : alookup "b01".data (addAll initState ["b01".data, "b02".data, "b03".data,
      "b04".data, "b05".data, "b06".data, "b07".data, "b08".data, "b09".data,
      "b10".data, "b11".data, "b12".data, "b13".data]).positions =
      some (circlePos (initState.nodes.length + 0)) := hpos 0 (by norm_num)
  have h13 : alookup "b13".data (addAll initState ["b01".data, "b02".data, "b03".data,
      "b04".data, "b05".data, "b06".data, "b07".data, "b08".data, "b09".data,
      "b10".data, "b11".data, "b12".data, "b13".data]).positions =
      some (circlePos (initState.nodes.length + 12)) := hpos 12 (by norm_num)
  refine ⟨?_, ?_, ?_⟩
  · rw [hlen, hl1]
    decide
  · rw [h13, h1, hl1]
    rw [show (1 : ℕ) + 12 = 1 + MAX_NODES from rfl, circlePos_period 1,
      show (1 : ℕ) + 0 = 1 from rfl]
  · rw [h1, hl1]

/-- C3 (amended): once `MAX_NODES` distinct addresses are registered,
registering a further distinct address is silently accepted: `add_node`
is total, never signals, and appends the node with the same wrap-around
circle formula — whose angle is periodic with period `MAX_NODES`, so the
new node's position coincides with the one assigned `MAX_NODES`
insertions earlier — rather than surfacing a `CapacityExceeded`
signal. -/
theorem c3_amended_capacity :
    (∀ (s : MVState) (addr : Str), alookup addr s.nodes = none → s.center_node ≠ none →
      (add_node s addr).nodes.length = s.nodes.length + 1
      ∧ alookup addr (add_node s addr).positions = some (circlePos s.nodes.length))
    ∧ (∀ k, circlePos (k + MAX_NODES) = circlePos k) := by
  constructor
  · intro s addr hf hc
    obtain ⟨col, hcol⟩ := add_node_nodes_fresh s addr hf
    refine ⟨by rw [hcol]; simp, ?_⟩
    rw [add_node_positions_fresh s addr hf, alookup_setk_self]
    rcases hcn : s.center_node with _ | c
    · exact absurd hcn hc
    · simp [hcn]
  · exact circlePos_period

/-- Closed witness for C3's amended statement: registering `b1` into the
seeded initial state succeeds and is placed by the circle formula, and
the formula wraps with period `MAX_NODES`. -/
theorem c3_amended_capacity_witness :
    ((add_node initState "b1".data).nodes.length = initState.nodes.length + 1
      ∧ alookup "b1".data (add_node initState "b1".data).positions =
          some (circlePos initState.nodes.length))
    ∧ circlePos (0 + MAX_NODES) = circlePos 0 :=
  ⟨c3_amended_capacity.1 initState "b1".data (by decide) (by decide),
   c3_amended_capacity.2 0⟩
